import Mathlib

/-!
Shallow embedding of the FIDAS → IQAir incremental aggregation pipeline
(src/upload_to_iqair.py and src/sql_version_example.py).

Timestamps are modelled as natural numbers counting seconds; the code's
pandas timestamps and their fixed-format string renderings
("YYYYMMDDTHHMM+0400") are order-isomorphic to these numbers, so the
stored last_raw_timestamp / last_avg_timestamp columns are modelled as
`Option Nat` (none = no value stored / empty string).  A raw record's
`date` and `time` text columns are modelled by the result of parsing
them: `dt = some t` when `pd.to_datetime` succeeds, `none` when it
raises (`ValueError`/`KeyError`).
-/

namespace FidasIqair

/-- `pandas .dt.floor("h")` on a seconds-based timestamp. -/
def hourFloor (t : Nat) : Nat := t / 3600 * 3600

/-- `pandas .floor("min")` on a seconds-based timestamp. -/
def minuteFloor (t : Nat) : Nat := t / 60 * 60

/-- The eight numeric sensor columns of a FIDAS record:
"wind speed", "wind direction", "T", "rH", "p", "PM1", "PM2.5", "PM10". -/
structure Vals where
  windSpeed : ℚ
  windDirection : ℚ
  t : ℚ
  rH : ℚ
  p : ℚ
  pm1 : ℚ
  pm25 : ℚ
  pm10 : ℚ
deriving DecidableEq

/-- One raw sensor observation (one line of a FIDAS .txt file, or one row of
the sensor_data SQL table).  `dt` is the outcome of parsing its `date` and
`time` columns with format `%m/%d/%Y %I:%M:%S %p`: `none` models a parse
failure or a missing date/time column. -/
structure RawRecord where
  dt : Option Nat
  vals : Vals
deriving DecidableEq

/-- One row of the processing_status table of upload_to_iqair.py
(filename is the key; here the row is tracked per source directly). -/
structure ProcessingStatus where
  lastRawTimestamp : Option Nat
  lastAvgTimestamp : Option Nat
  lastRow : Nat
deriving DecidableEq

/-- One row of the aggregated hourly output (one CSV line): the floored
hour (rendered by the code as `%Y%m%dT%H%M+0400`) and the per-field means.
The static station fields (name, lat, lon) are constants in the code and
carry no information, so they are not modelled. -/
structure AggRow where
  hour : Nat
  vals : Vals
deriving DecidableEq

/-- Insertion of an element into a sorted list (helper for `sortLe`). -/
def insertLe {α : Type} (le : α → α → Bool) (a : α) : List α → List α
  | [] => [a]
  | b :: l => if le a b then a :: b :: l else b :: insertLe le a l

/-- Insertion sort, ascending with respect to `le`; models Python `sorted`
and the ascending group keys produced by `DataFrame.groupby`. -/
def sortLe {α : Type} (le : α → α → Bool) : List α → List α
  | [] => []
  | a :: l => insertLe le a (sortLe le l)

/-- Boolean `≤` on naturals, the comparison under the ascending hour keys
of `groupby`. -/
def natLeB (a b : Nat) : Bool := a ≤ b

/-- Lexicographic comparison of code-point sequences: how Python compares
two strings with `<`/`sorted`. -/
def lexLe : List Nat → List Nat → Bool
  | [], _ => true
  | _ :: _, [] => false
  | a :: as, b :: bs => if a < b then true else if a = b then lexLe as bs else false

/-- Python string comparison (lexicographic by code point). -/
def strLe (a b : String) : Bool :=
  lexLe (a.data.map Char.toNat) (b.data.map Char.toNat)

/-- Maximum of a list of naturals (`Series.max()` on a non-empty column). -/
def maxNat (l : List Nat) : Nat := l.foldl max 0

/-- Last element of a non-empty list, default 0 (`Series.iloc[-1]`). -/
def lastD : List Nat → Nat
  | [] => 0
  | [a] => a
  | _ :: b :: l => lastD (b :: l)

/-- Arithmetic mean of a list of rationals (`"mean"` aggregation). -/
def meanList (l : List ℚ) : ℚ := l.sum / (l.length : ℚ)

/-- Per-field arithmetic mean over a group of records. -/
def meanVals (l : List Vals) : Vals :=
  { windSpeed := meanList (l.map Vals.windSpeed)
    windDirection := meanList (l.map Vals.windDirection)
    t := meanList (l.map Vals.t)
    rH := meanList (l.map Vals.rH)
    p := meanList (l.map Vals.p)
    pm1 := meanList (l.map Vals.pm1)
    pm25 := meanList (l.map Vals.pm25)
    pm10 := meanList (l.map Vals.pm10) }

/-- The `date_time` column after successful parsing: each surviving record
as a (timestamp, sensor values) pair. -/
def parsedOf (l : List RawRecord) : List (Nat × Vals) :=
  l.filterMap (fun r => r.dt.map (fun t0 => (t0, r.vals)))

/-- `complete_data`: records whose floored hour is strictly before the
current wall-clock hour. -/
def completeOf (l : List (Nat × Vals)) (now : Nat) : List (Nat × Vals) :=
  l.filter (fun r => hourFloor r.1 < hourFloor now)

/-- `groupby("hour").agg(mean).reset_index()`: group keys ascending,
one output row per distinct floored hour with per-field means. -/
def groupRows (complete : List (Nat × Vals)) : List AggRow :=
  let hours := sortLe natLeB ((complete.map (fun r => hourFloor r.1)).dedup)
  hours.map (fun h =>
    { hour := h
      vals := meanVals ((complete.filter (fun r => hourFloor r.1 = h)).map Prod.snd) })

/-- Body of `process_file` from the point where the (possibly reset)
`last_row` offset is fixed.  `writeOk` models whether the CSV
append/write raises `OSError` (`false`) or succeeds (`true`).  Returns the
processing-status row as stored after the pass together with the newly
aggregated rows (`none` when nothing was produced). -/
def processFileCore (file : List RawRecord) (st : ProcessingStatus) (now : Nat)
    (writeOk : Bool) (lastRow : Nat) : ProcessingStatus × Option (List AggRow) :=
  let totalRows := file.length
  if totalRows = lastRow then
    (st, none)
  else
    let dfNew := file.drop lastRow
    if dfNew.any (fun r => r.dt.isNone) then
      (st, none)
    else
      let complete := completeOf (parsedOf dfNew) now
      if complete = [] then
        ({ st with lastRow := totalRows }, none)
      else
        let csvData := groupRows complete
        if writeOk = false then
          (st, none)
        else
          let newLastAvg := lastD (csvData.map AggRow.hour)
          let newLastRaw := minuteFloor (maxNat (complete.map Prod.fst))
          ({ lastRawTimestamp := some newLastRaw
             lastAvgTimestamp := some newLastAvg
             lastRow := totalRows }, some csvData)

/-- `process_file` of upload_to_iqair.py for one source file: the retrieved
file content, the stored processing-status row, the wall-clock time and the
CSV-write outcome determine the new stored row and the produced batch.
An empty file stores `last_row = 0`; a stored offset larger than the file
is reset to 0 for the pass (lines 347-355 of the source). -/
def processFile (file : List RawRecord) (st : ProcessingStatus) (now : Nat)
    (writeOk : Bool) : ProcessingStatus × Option (List AggRow) :=
  if file.length = 0 then
    ({ st with lastRow := 0 }, none)
  else
    processFileCore file st now writeOk
      (if file.length < st.lastRow then 0 else st.lastRow)

/-- Processing-status row of sql_version_example.py (no `last_row`
column: resumption is purely timestamp-based under the constant key
"sensor_data"). -/
structure SqlStatus where
  lastRawTimestamp : Option Nat
  lastAvgTimestamp : Option Nat
deriving DecidableEq

/-- `fetch_new_sensor_data` of sql_version_example.py: reads the whole
sensor_data table, parses date+time (any parse failure empties the result,
lines 96-102), and keeps only rows with `date_time` strictly greater than
the stored minute-precision last_raw_timestamp (all rows when none is
stored). -/
def fetch_new_sensor_data (table : List RawRecord) (st : SqlStatus) :
    List RawRecord :=
  if table.isEmpty then []
  else if table.any (fun r => r.dt.isNone) then []
  else
    match st.lastRawTimestamp with
    | some lastDt => table.filter (fun r => lastDt < r.dt.getD 0)
    | none => table

/-- `process_sensor_data` of sql_version_example.py: hourly means over the
completed hours of the new batch, plus the two new resumption timestamps
(`new_last_raw` = minute-floored maximum raw timestamp of the complete
records, `new_last_avg` = last aggregated hour). -/
def process_sensor_data (dfNew : List RawRecord) (now : Nat) :
    Option (List AggRow × Nat × Nat) :=
  if dfNew.isEmpty then none
  else
    let complete := completeOf (parsedOf dfNew) now
    if complete = [] then none
    else
      let group := groupRows complete
      let newLastAvg := lastD (group.map AggRow.hour)
      let newLastRaw := minuteFloor (maxNat (complete.map Prod.fst))
      some (group, newLastRaw, newLastAvg)

/-- One per-cycle step of `main` in sql_version_example.py (lines 218-246):
fetch, aggregate, attempt the CSV write, then update the processing status
and send.  The CSV write failure (`writeOk = false`) is caught by the
`try/except` at lines 231-235 and only logged: the status update at lines
238-240 and the API send run unconditionally afterwards, which is why
`writeOk` does not influence the result.  The boolean output records
whether a batch was sent to the API. -/
def sql_main_step (table : List RawRecord) (st : SqlStatus) (now : Nat)
    (writeOk : Bool) : SqlStatus × Bool :=
  let dfNew := fetch_new_sensor_data table st
  if dfNew.isEmpty then (st, false)
  else
    match process_sensor_data dfNew now with
    | none => (st, false)
    | some (_, newLastRaw, newLastAvg) =>
        ({ lastRawTimestamp := some newLastRaw
           lastAvgTimestamp := some newLastAvg }, true)

/-- A stored row of the processing_status table of upload_to_iqair.py as
the SQL engine holds it: TEXT timestamps (empty string = unset) and an
INTEGER row count. -/
structure StatusRow where
  lastRawTimestamp : String
  lastAvgTimestamp : String
  lastRow : Nat
deriving DecidableEq

/-- `SELECT ... WHERE filename = ?` on the processing_status table,
modelled over an association list (first matching key wins, as for a
primary key). -/
def findRow (store : List (String × StatusRow)) (filename : String) :
    Option StatusRow :=
  match store with
  | [] => none
  | kv :: rest => if kv.1 = filename then some kv.2 else findRow rest filename

/-- `update_processing_status` of upload_to_iqair.py (lines 107-171):
if a row for `filename` exists, only the supplied (non-None) fields are
overwritten (an SQL UPDATE touching every row with that key); otherwise a
new row is inserted with omitted fields defaulted to the empty string
(timestamps) or 0 (last_row). -/
def update_processing_status (store : List (String × StatusRow))
    (filename : String) (lastRawTimestamp lastAvgTimestamp : Option String)
    (lastRow : Option Nat) : List (String × StatusRow) :=
  match findRow store filename with
  | some _ =>
      store.map (fun kv =>
        if kv.1 = filename then
          (kv.1,
            { lastRawTimestamp := lastRawTimestamp.getD kv.2.lastRawTimestamp
              lastAvgTimestamp := lastAvgTimestamp.getD kv.2.lastAvgTimestamp
              lastRow := lastRow.getD kv.2.lastRow })
        else kv)
  | none =>
      store ++ [(filename,
        { lastRawTimestamp := lastRawTimestamp.getD ""
          lastAvgTimestamp := lastAvgTimestamp.getD ""
          lastRow := lastRow.getD 0 })]

/-- Python `str.lower` on an ASCII character. -/
def toLowerChar (c : Char) : Char :=
  if 65 ≤ c.toNat ∧ c.toNat ≤ 90 then Char.ofNat (c.toNat + 32) else c

/-- Python `str.lower` (ASCII range, which covers FTP file names). -/
def lowerStr (s : String) : String := String.mk (s.data.map toLowerChar)

/-- Python `str.endswith`. -/
def strEndsWith (s suffixStr : String) : Bool :=
  suffixStr.data.isSuffixOf s.data

/-- `list_remote_txt_files` of upload_to_iqair.py (lines 221-239): on a
directory-listing error the empty list is returned; otherwise the names
whose lowercased form ends in ".txt", sorted (Python `sorted`, i.e.
lexicographically by code point on the original names).  `main` (lines
574-591) iterates over exactly this list each cycle. -/
def list_remote_txt_files (listing : Except String (List String)) :
    List String :=
  match listing with
  | Except.error _ => []
  | Except.ok names =>
      sortLe strLe (names.filter (fun n => strEndsWith (lowerStr n) ".txt"))

/-- Python `str.split(sep)` on a character list (empty pieces kept). -/
def splitChar (sep : Char) : List Char → List (List Char)
  | [] => [[]]
  | c :: cs =>
      let r := splitChar sep cs
      if c = sep then [] :: r
      else
        match r with
        | [] => [[c]]
        | g :: gs => (c :: g) :: gs

/-- Python `str.split(sep)` on strings. -/
def splitStr (sep : Char) (s : String) : List String :=
  (splitChar sep s.data).map String.mk

/-- `os.path.basename`: the final path component. -/
def basename (s : String) : String :=
  (splitStr '/' s).getLastD s

/-- Python `str.isdigit` (ASCII digits; empty string is NOT a digit
string). -/
def isDigitStr (s : String) : Bool :=
  !s.data.isEmpty && s.data.all Char.isDigit

/-- The wall-clock datetime as `build_output_filename` consumes it. -/
structure DateTimeParts where
  year : Nat
  month : Nat
  day : Nat
  hour : Nat
  minute : Nat
  second : Nat
deriving DecidableEq

/-- Zero-padding to two digits (strftime `%m`, `%d`, `%H`, `%M`, `%S`). -/
def pad2 (n : Nat) : String := if n < 10 then "0" ++ toString n else toString n

/-- Zero-padding to four digits (strftime `%Y`). -/
def pad4 (n : Nat) : String :=
  if n < 10 then "000" ++ toString n
  else if n < 100 then "00" ++ toString n
  else if n < 1000 then "0" ++ toString n
  else toString n

/-- `now.strftime("%Y%m%d_%H%M%S")`. -/
def strftimeCompact (now : DateTimeParts) : String :=
  pad4 now.year ++ pad2 now.month ++ pad2 now.day ++ "_"
    ++ pad2 now.hour ++ pad2 now.minute ++ pad2 now.second

/-- The timestamp-based fallback artifact name of `build_output_filename`
(lines 294-295). -/
def timestampFallback (now : DateTimeParts) : String :=
  "NYUAD_FIDAS_DATA_" ++ strftimeCompact now ++ ".csv"

/-- `build_output_filename` of upload_to_iqair.py (lines 275-295): split
the basename on underscores; when there are at least four pieces and both
the third piece and the pre-dot part of the fourth piece are (non-empty)
digit strings, produce `NYUAD_FIDAS_DATA_<year>_<month>.csv`; otherwise
fall back to a timestamp-based name. -/
def build_output_filename (filename : String) (now : DateTimeParts) : String :=
  let baseName := basename filename
  let parts := splitStr '_' baseName
  if 4 ≤ parts.length then
    let year := parts.getD 2 ""
    let monthAndExt := parts.getD 3 ""
    let month := (splitStr '.' monthAndExt).headD ""
    if isDigitStr year && isDigitStr month then
      "NYUAD_FIDAS_DATA_" ++ year ++ "_" ++ month ++ ".csv"
    else timestampFallback now
  else timestampFallback now

/-- Sensor values used by the concrete test inputs below. -/
def vOne : Vals := ⟨1, 1, 1, 1, 1, 1, 1, 1⟩

/-- A raw record with all sensor fields 1 whose date+time parse to `t0`. -/
def recAt (t0 : Nat) : RawRecord := ⟨some t0, vOne⟩

/-- A raw record whose date/time fails to parse. -/
def recBad : RawRecord := ⟨none, vOne⟩

/-- The default-empty processing status (no stored row for the source). -/
def stEmpty : ProcessingStatus := ⟨none, none, 0⟩

/-! Helper lemmas about the list combinators used by the embedding. -/

theorem insertLe_perm {α : Type} (le : α → α → Bool) (a : α) (l : List α) :
    (insertLe le a l).Perm (a :: l) := by
  induction l with
  | nil => simp [insertLe]
  | cons b t ih =>
      by_cases h : le a b = true
      · simp [insertLe, h]
      · simp only [insertLe, h]
        rw [if_neg (by simp [h])]
        exact ((ih.cons b).trans (List.Perm.swap a b t))

theorem sortLe_perm {α : Type} (le : α → α → Bool) (l : List α) :
    (sortLe le l).Perm l := by
  induction l with
  | nil => simp [sortLe]
  | cons a t ih => exact (insertLe_perm le a (sortLe le t)).trans (ih.cons a)

theorem mem_sortLe {α : Type} (le : α → α → Bool) (l : List α) (x : α) :
    x ∈ sortLe le l ↔ x ∈ l :=
  (sortLe_perm le l).mem_iff

theorem pairwise_insertLe {α : Type} (le : α → α → Bool)
    (htot : ∀ a b, le a b = false → le b a = true)
    (htr : ∀ a b c, le a b = true → le b c = true → le a c = true)
    (a : α) (l : List α) (h : l.Pairwise (fun x y => le x y = true)) :
    (insertLe le a l).Pairwise (fun x y => le x y = true) := by
  induction l with
  | nil => simp [insertLe]
  | cons b t ih =>
      rcases List.pairwise_cons.mp h with ⟨hb, ht⟩
      by_cases hab : le a b = true
      · simp only [insertLe, if_pos hab]
        refine List.pairwise_cons.mpr ⟨?_, h⟩
        intro x hx
        rcases List.mem_cons.mp hx with rfl | hx
        · exact hab
        · exact htr a b x hab (hb x hx)
      · simp only [insertLe, if_neg hab]
        refine List.pairwise_cons.mpr ⟨?_, ih ht⟩
        intro x hx
        rcases List.mem_cons.mp ((insertLe_perm le a t).mem_iff.mp hx) with rfl | hx
        · exact htot _ b (Bool.eq_false_iff.mpr hab)
        · exact hb x hx

theorem pairwise_sortLe {α : Type} (le : α → α → Bool)
    (htot : ∀ a b, le a b = false → le b a = true)
    (htr : ∀ a b c, le a b = true → le b c = true → le a c = true)
    (l : List α) : (sortLe le l).Pairwise (fun x y => le x y = true) := by
  induction l with
  | nil => simp [sortLe]
  | cons a t ih => exact pairwise_insertLe le htot htr a (sortLe le t) ih

theorem natLeB_total (a b : Nat) (h : natLeB a b = false) : natLeB b a = true := by
  simp only [natLeB, decide_eq_false_iff_not, not_le] at h
  simp [natLeB, Nat.le_of_lt h]

theorem natLeB_trans (a b c : Nat) (h1 : natLeB a b = true)
    (h2 : natLeB b c = true) : natLeB a c = true := by
  simp only [natLeB, decide_eq_true_eq] at h1 h2
  simp [natLeB, le_trans h1 h2]

theorem foldl_max_eq (l : List Nat) : ∀ acc : Nat,
    l.foldl max acc = max acc (l.foldl max 0) := by
  induction l with
  | nil => intro acc; simp
  | cons x t ih =>
      intro acc
      simp only [List.foldl_cons]
      rw [ih (max acc x), ih (max 0 x), Nat.zero_max, Nat.max_assoc]

theorem maxNat_cons (x : Nat) (l : List Nat) :
    maxNat (x :: l) = max x (maxNat l) := by
  simp only [maxNat, List.foldl_cons, Nat.zero_max]
  exact foldl_max_eq l x

theorem le_maxNat {a : Nat} {l : List Nat} (h : a ∈ l) : a ≤ maxNat l := by
  induction l with
  | nil => cases h
  | cons x t ih =>
      rw [maxNat_cons]
      rcases List.mem_cons.mp h with rfl | h
      · exact Nat.le_max_left a (maxNat t)
      · exact le_trans (ih h) (Nat.le_max_right x (maxNat t))

theorem maxNat_mem {l : List Nat} (h : l ≠ []) : maxNat l ∈ l := by
  induction l with
  | nil => exact absurd rfl h
  | cons x t ih =>
      rw [maxNat_cons]
      rcases eq_or_ne t [] with rfl | ht
      · simp [maxNat]
      · rcases Nat.le_total (maxNat t) x with hle | hle
        · simp [Nat.max_eq_left hle]
        · rw [Nat.max_eq_right hle]
          exact List.mem_cons_of_mem x (ih ht)

theorem maxNat_congr {l1 l2 : List Nat} (h : ∀ a, a ∈ l1 ↔ a ∈ l2) :
    maxNat l1 = maxNat l2 := by
  rcases eq_or_ne l1 [] with rfl | h1
  · rcases eq_or_ne l2 [] with rfl | h2
    · rfl
    · rcases List.exists_mem_of_ne_nil l2 h2 with ⟨a, ha⟩
      exact absurd ((h a).mpr ha) (List.not_mem_nil a)
  · have h2 : l2 ≠ [] := by
      rcases List.exists_mem_of_ne_nil l1 h1 with ⟨a, ha⟩
      intro hn
      rw [hn] at h
      exact absurd ((h a).mp ha) (List.not_mem_nil a)
    exact Nat.le_antisymm
      (le_maxNat ((h _).mp (maxNat_mem h1)))
      (le_maxNat ((h _).mpr (maxNat_mem h2)))

theorem lastD_eq_maxNat (l : List Nat) (hne : l ≠ [])
    (hs : l.Pairwise (fun x y => natLeB x y = true)) : lastD l = maxNat l := by
  induction l with
  | nil => exact absurd rfl hne
  | cons x t ih =>
      rcases eq_or_ne t [] with rfl | ht
      · simp [lastD, maxNat]
      · rcases List.pairwise_cons.mp hs with ⟨hx, hrest⟩
        have hlast : lastD (x :: t) = lastD t := by
          rcases t with _ | ⟨b, t2⟩
          · exact absurd rfl ht
          · rfl
        rw [hlast, ih ht hrest]
        have hxle : x ≤ maxNat t := by
          have := hx (maxNat t) (maxNat_mem ht)
          simpa [natLeB] using this
        rw [maxNat_cons, Nat.max_eq_right hxle]

theorem mem_completeOf {l : List (Nat × Vals)} {now : Nat} {x : Nat × Vals} :
    x ∈ completeOf l now ↔ x ∈ l ∧ hourFloor x.1 < hourFloor now := by
  simp [completeOf, List.mem_filter]

theorem hours_groupRows (complete : List (Nat × Vals)) :
    (groupRows complete).map AggRow.hour =
      sortLe natLeB ((complete.map (fun r => hourFloor r.1)).dedup) := by
  simp [groupRows, List.map_map, Function.comp_def]

theorem mem_groupRows_exists (complete : List (Nat × Vals)) (row : AggRow)
    (h : row ∈ groupRows complete) : ∃ x ∈ complete, row.hour = hourFloor x.1 := by
  simp only [groupRows, List.mem_map] at h
  obtain ⟨h0, hh0, rfl⟩ := h
  rw [mem_sortLe, List.mem_dedup] at hh0
  obtain ⟨x, hx, rfl⟩ := List.mem_map.mp hh0
  exact ⟨x, hx, rfl⟩

theorem sortLe_ne_nil {α : Type} (le : α → α → Bool) {l : List α} (h : l ≠ []) :
    sortLe le l ≠ [] := by
  intro hn
  have := (sortLe_perm le l).length_eq
  rw [hn] at this
  exact h (List.eq_nil_of_length_eq_zero this.symm)

theorem lastD_groupRows (complete : List (Nat × Vals)) (h : complete ≠ []) :
    lastD ((groupRows complete).map AggRow.hour) =
      maxNat (complete.map (fun r => hourFloor r.1)) := by
  rw [hours_groupRows]
  have hd : (complete.map (fun r => hourFloor r.1)).dedup ≠ [] := by
    simp [List.dedup_eq_nil, h]
  rw [lastD_eq_maxNat _ (sortLe_ne_nil natLeB hd)
    (pairwise_sortLe natLeB natLeB_total natLeB_trans _)]
  apply maxNat_congr
  intro a
  rw [mem_sortLe, List.mem_dedup]

theorem processFile_eq_core (file : List RawRecord) (st : ProcessingStatus)
    (now : Nat) (w : Bool) (hne : file.length ≠ 0) :
    processFile file st now w =
      processFileCore file st now w
        (if file.length < st.lastRow then 0 else st.lastRow) := by
  simp [processFile, hne]

theorem processFileCore_eq_some (file : List RawRecord) (st : ProcessingStatus)
    (now : Nat) (w : Bool) (k : Nat) (rows : List AggRow)
    (h : (processFileCore file st now w k).2 = some rows) :
    completeOf (parsedOf (file.drop k)) now ≠ [] ∧ w = true ∧
      rows = groupRows (completeOf (parsedOf (file.drop k)) now) ∧
      (processFileCore file st now w k).1 =
        { lastRawTimestamp := some (minuteFloor (maxNat
              ((completeOf (parsedOf (file.drop k)) now).map Prod.fst)))
          lastAvgTimestamp := some (maxNat
              ((completeOf (parsedOf (file.drop k)) now).map (fun r => hourFloor r.1)))
          lastRow := file.length } := by
  by_cases h1 : file.length = k
  · simp [processFileCore, h1] at h
  · by_cases h2 : (file.drop k).any (fun r => r.dt.isNone) = true
    · simp [processFileCore, h1, h2] at h
    · by_cases h3 : completeOf (parsedOf (file.drop k)) now = []
      · simp [processFileCore, h1, h2, h3] at h
      · by_cases h4 : w = true
        · refine ⟨h3, h4, ?_, ?_⟩
          · simp only [processFileCore, if_neg h1] at h
            rw [if_neg h2, if_neg h3, if_neg (by simp [h4])] at h
            exact (Option.some_inj.mp h).symm
          · simp only [processFileCore, if_neg h1]
            rw [if_neg h2, if_neg h3, if_neg (by simp [h4])]
            simp only
            rw [lastD_groupRows _ h3]
        · rw [eq_false_of_ne_true h4] at h
          simp only [processFileCore, if_neg h1] at h
          rw [if_neg h2, if_neg h3] at h
          simp at h

/-! Claim theorems. -/

/-- C1: evaluation of `process_file` at a failing input.  A file holding a
single record of the still-open hour (record timestamp 36060 and clock
36120 share the hour 36000), processed from offset 0, stores
`last_row = 1` — the full batch length — although no record of a completed
hour was consumed and nothing was aggregated.  The claim requires the
stored `last_row` to advance at most past the last completed-hour record
(here: to remain 0), so that the open-hour record is re-scanned once its
hour completes; the code instead marks it consumed forever. -/
theorem c1_open_hour_advances_last_row :
    hourFloor 36060 = hourFloor 36120 ∧
    processFile [recAt 36060] stEmpty 36120 true =
      ({ stEmpty with lastRow := 1 }, none) := by
  decide

/-- C2: evaluation at a failing input.  One record at timestamp 36060.
Cycle 1 runs at 36120 (its hour still open): nothing aggregated, but
`last_row` becomes 1.  Cycle 2 runs at 39660 (the hour completed): no new
rows beyond `last_row`, so again nothing is aggregated — the incremental
runs produce no hourly aggregate at all.  Running the aggregation once
over the full file at 39660 produces the completed hour 36000.  The sets
of produced (source, hour) aggregates therefore differ. -/
theorem c2_incremental_differs_from_batch :
    (processFile [recAt 36060] stEmpty 36120 true).2 = none ∧
    (processFile [recAt 36060]
        (processFile [recAt 36060] stEmpty 36120 true).1 39660 true).2 = none ∧
    (processFile [recAt 36060] stEmpty 39660 true).2.map
        (fun rows => rows.map AggRow.hour) = some [36000] := by
  decide

/-- C3: evaluation at a failing input.  For a batch with one completed-hour
record (timestamp 36060, clock 39660) and a failing CSV write
(`writeOk = false`), the SQL variant's cycle still advances the stored
status to (36060, 36000) — `main` of sql_version_example.py catches the
write error and updates processing status regardless — whereas
`process_file` of upload_to_iqair.py returns with the status row unchanged,
as the claim demands. -/
theorem c3_sql_variant_advances_status_despite_write_failure :
    (sql_main_step [recAt 36060] ⟨none, none⟩ 39660 false).1 =
      ⟨some 36060, some 36000⟩ ∧
    processFile [recAt 36060] stEmpty 39660 false = (stEmpty, none) := by
  decide

/-- C4: in both variants, every hour appearing in an aggregated output row
is strictly below the floor of the current wall-clock time to the hour:
the in-progress hour is never aggregated. -/
theorem c4_no_open_hour_in_output :
    (∀ (file : List RawRecord) (st : ProcessingStatus) (now : Nat) (w : Bool)
        (rows : List AggRow) (h0 : Nat),
        (processFile file st now w).2 = some rows →
        h0 ∈ rows.map AggRow.hour → h0 < hourFloor now) ∧
    (∀ (dfNew : List RawRecord) (now : Nat)
        (res : List AggRow × Nat × Nat) (h0 : Nat),
        process_sensor_data dfNew now = some res →
        h0 ∈ res.1.map AggRow.hour → h0 < hourFloor now) := by
  constructor
  · intro file st now w rows h0 hsome hmem
    have hne : file.length ≠ 0 := by
      intro hlen
      rw [processFile, if_pos hlen] at hsome
      exact Option.noConfusion hsome
    rw [processFile_eq_core file st now w hne] at hsome
    obtain ⟨-, -, hrows, -⟩ := processFileCore_eq_some _ _ _ _ _ _ hsome
    obtain ⟨row, hrow, rfl⟩ := List.mem_map.mp hmem
    rw [hrows] at hrow
    obtain ⟨x, hx, hhx⟩ := mem_groupRows_exists _ _ hrow
    rw [hhx]
    exact (mem_completeOf.mp hx).2
  · intro dfNew now res h0 hsome hmem
    by_cases he : dfNew.isEmpty
    · simp [process_sensor_data, he] at hsome
    · by_cases h3 : completeOf (parsedOf dfNew) now = []
      · simp [process_sensor_data, he, h3] at hsome
      · have hres : res.1 = groupRows (completeOf (parsedOf dfNew) now) := by
          simp only [process_sensor_data, if_neg he, if_neg h3] at hsome
          obtain rfl := Option.some_inj.mp hsome
          rfl
        obtain ⟨row, hrow, rfl⟩ := List.mem_map.mp hmem
        rw [hres] at hrow
        obtain ⟨x, hx, hhx⟩ := mem_groupRows_exists _ _ hrow
        rw [hhx]
        exact (mem_completeOf.mp hx).2

/-- C4 witness: a concrete successful run (one record at 36060 processed at
39660) produces the aggregate hour 36000, which the theorem places below
the current hour 39600. -/
theorem c4_no_open_hour_in_output_witness : (36000 : Nat) < hourFloor 39660 :=
  c4_no_open_hour_in_output.1 [recAt 36060] stEmpty 39660 true
    (groupRows (completeOf (parsedOf [recAt 36060]) 39660)) 36000
    rfl (by decide)

/-- C6: when the stored `last_row` exceeds the current number of rows, the
pass does not fail: it behaves exactly like a pass whose offset is 0, so
the whole file is treated as new data in the same pass (the warning is
logged and the local offset reset, lines 347-355 of upload_to_iqair.py). -/
theorem c6_reset_on_truncated_source (file : List RawRecord)
    (st : ProcessingStatus) (now : Nat) (w : Bool)
    (h : file.length < st.lastRow) :
    processFile file st now w =
      (if file.length = 0 then ({ st with lastRow := 0 }, none)
       else processFileCore file st now w 0) := by
  rcases eq_or_ne file.length 0 with h0 | h0
  · rw [processFile, if_pos h0, if_pos h0]
  · rw [processFile, if_neg h0, if_neg h0, if_pos h]

/-- C6 witness: a stored offset of 5 against a one-record file is handled
as a fresh scan from offset 0. -/
theorem c6_reset_on_truncated_source_witness :
    processFile [recAt 36060] ⟨none, none, 5⟩ 0 true =
      (if ([recAt 36060] : List RawRecord).length = 0
       then ({ (⟨none, none, 5⟩ : ProcessingStatus) with lastRow := 0 }, none)
       else processFileCore [recAt 36060] ⟨none, none, 5⟩ 0 true 0) :=
  c6_reset_on_truncated_source [recAt 36060] ⟨none, none, 5⟩ 0 true (by decide)

/-- C7: a record of the new batch whose date/time fails to parse makes the
whole pass reject the batch: `process_file` returns with the stored status
row untouched and no aggregate produced (the same batch is recomputed next
cycle), and in the SQL variant `fetch_new_sensor_data` returns the empty
batch. -/
theorem c7_parse_failure_rejects_batch :
    (∀ (file : List RawRecord) (st : ProcessingStatus) (now : Nat) (w : Bool)
        (r : RawRecord),
        r ∈ file.drop (if file.length < st.lastRow then 0 else st.lastRow) →
        r.dt = none →
        processFile file st now w = (st, none)) ∧
    (∀ (table : List RawRecord) (st : SqlStatus) (r : RawRecord),
        r ∈ table → r.dt = none → fetch_new_sensor_data table st = []) := by
  constructor
  · intro file st now w r hr hnone
    have hmemfile : r ∈ file := List.drop_subset _ _ hr
    have hne : file.length ≠ 0 := by
      intro hlen
      rw [List.eq_nil_of_length_eq_zero hlen] at hmemfile
      exact (List.not_mem_nil r) hmemfile
    rw [processFile_eq_core file st now w hne]
    have h1 : file.length ≠ (if file.length < st.lastRow then 0 else st.lastRow) := by
      by_cases hcmp : file.length < st.lastRow
      · rw [if_pos hcmp]; exact hne
      · rw [if_neg hcmp]
        intro heq
        rw [if_neg hcmp, ← heq, List.drop_length] at hr
        exact (List.not_mem_nil r) hr
    have h2 : (file.drop (if file.length < st.lastRow then 0 else st.lastRow)).any
        (fun r => r.dt.isNone) = true := by
      rw [List.any_eq_true]
      exact ⟨r, hr, by rw [hnone]; rfl⟩
    simp only [processFileCore, if_neg h1]
    rw [if_pos h2]
  · intro table st r hr hnone
    have h2 : table.any (fun r => r.dt.isNone) = true := by
      rw [List.any_eq_true]
      exact ⟨r, hr, by rw [hnone]; rfl⟩
    by_cases he : table.isEmpty
    · rw [fetch_new_sensor_data, if_pos he]
    · rw [fetch_new_sensor_data, if_neg he, if_pos h2]

/-- C7 witness: a one-record file whose record does not parse is rejected
with the status row unchanged, and the SQL fetch returns no rows. -/
theorem c7_parse_failure_rejects_batch_witness :
    processFile [recBad] stEmpty 0 true = (stEmpty, none) ∧
    fetch_new_sensor_data [recBad] ⟨none, none⟩ = [] :=
  ⟨c7_parse_failure_rejects_batch.1 [recBad] stEmpty 0 true recBad (by decide) rfl,
   c7_parse_failure_rejects_batch.2 [recBad] ⟨none, none⟩ recBad (by decide) rfl⟩

theorem minuteFloor_mono {a b : Nat} (h : a ≤ b) : minuteFloor a ≤ minuteFloor b :=
  Nat.mul_le_mul_right _ (Nat.div_le_div_right h)

theorem hourFloor_mono {a b : Nat} (h : a ≤ b) : hourFloor a ≤ hourFloor b :=
  Nat.mul_le_mul_right _ (Nat.div_le_div_right h)

theorem mem_parsedOf {l : List RawRecord} {x : Nat × Vals} (h : x ∈ parsedOf l) :
    ∃ r ∈ l, r.dt = some x.1 := by
  simp only [parsedOf, List.mem_filterMap] at h
  obtain ⟨r, hr, hmap⟩ := h
  cases hdt : r.dt with
  | none => rw [hdt] at hmap; exact Option.noConfusion hmap
  | some t0 =>
      rw [hdt] at hmap
      refine ⟨r, hr, ?_⟩
      rw [hdt]
      rw [Option.map_some'] at hmap
      rw [← Option.some_inj.mp hmap]

/-- Any completed record of the first pass has a timestamp at most that of
any completed record taken from the appended suffix, provided the full
file is chronologically ordered. -/
theorem completeOf_cross_le (file1 rest : List RawRecord) (k1 now1 now2 : Nat)
    (hsorted : (file1 ++ rest).Pairwise (fun a b => a.dt.getD 0 ≤ b.dt.getD 0))
    {y x : Nat × Vals}
    (hy : y ∈ completeOf (parsedOf (file1.drop k1)) now1)
    (hx : x ∈ completeOf (parsedOf rest) now2) : y.1 ≤ x.1 := by
  obtain ⟨ry, hry, hdy⟩ := mem_parsedOf (mem_completeOf.mp hy).1
  obtain ⟨rx, hrx, hdx⟩ := mem_parsedOf (mem_completeOf.mp hx).1
  have hry1 : ry ∈ file1 := List.drop_subset _ _ hry
  have hcross := (List.pairwise_append.mp hsorted).2.2 ry hry1 rx hrx
  rw [hdy, hdx] at hcross
  simpa using hcross

/-- C5 (counterexample): the claim fails at a concrete truncation.  A file
with records at 33000 and 36600 processed at 39600 stores
(last_raw, last_avg, last_row) = (36600, 36000, 2).  The source is then
truncated to its first record; the next pass at 39660 finds the stored
offset 2 above the new total 1, resets to 0, reprocesses the whole file
and stores (33000, 32400, 1): both timestamps are chronologically
*smaller* than in the previous successful update, contradicting the
claimed monotonicity "including after the adapter resets last_row". -/
theorem c5_timestamps_decrease_after_reset :
    (processFile [recAt 33000, recAt 36600] stEmpty 39600 true).1 =
      ⟨some 36600, some 36000, 2⟩ ∧
    (processFile [recAt 33000]
        (processFile [recAt 33000, recAt 36600] stEmpty 39600 true).1
        39660 true).1 = ⟨some 33000, some 32400, 1⟩ ∧
    33000 < 36600 ∧ 32400 < 36000 := by
  decide

set_option maxRecDepth 2000 in
/-- C5 (amended): across two consecutive successful updates for the same
source, `last_raw_timestamp` and `last_avg_timestamp` are non-decreasing,
provided the source only grows by appending (`file1 ++ rest`, so no
truncation-induced reset separates the updates) and its records are in
chronological order of their parsed timestamps. -/
theorem c5_timestamps_monotone_without_truncation
    (file1 rest : List RawRecord) (st0 : ProcessingStatus) (now1 now2 : Nat)
    (w1 w2 : Bool) (out1 out2 : List AggRow)
    (hsorted : (file1 ++ rest).Pairwise (fun a b => a.dt.getD 0 ≤ b.dt.getD 0))
    (h1 : (processFile file1 st0 now1 w1).2 = some out1)
    (h2 : (processFile (file1 ++ rest) (processFile file1 st0 now1 w1).1
        now2 w2).2 = some out2) :
    (processFile file1 st0 now1 w1).1.lastRawTimestamp.getD 0 ≤
      (processFile (file1 ++ rest) (processFile file1 st0 now1 w1).1
        now2 w2).1.lastRawTimestamp.getD 0 ∧
    (processFile file1 st0 now1 w1).1.lastAvgTimestamp.getD 0 ≤
      (processFile (file1 ++ rest) (processFile file1 st0 now1 w1).1
        now2 w2).1.lastAvgTimestamp.getD 0 := by
  have hne1 : file1.length ≠ 0 := by
    intro hlen
    rw [processFile, if_pos hlen] at h1
    exact Option.noConfusion h1
  have hne2 : (file1 ++ rest).length ≠ 0 := by
    rw [List.length_append]
    intro hlen
    exact hne1 (Nat.eq_zero_of_add_eq_zero_right hlen)
  rw [processFile_eq_core file1 st0 now1 w1 hne1] at h1 h2 ⊢
  obtain ⟨hc1ne, -, -, hst1⟩ :=
    processFileCore_eq_some file1 st0 now1 w1
      (if file1.length < st0.lastRow then 0 else st0.lastRow) out1 h1
  rw [processFile_eq_core (file1 ++ rest) _ now2 w2 hne2] at h2 ⊢
  rw [hst1] at h2 ⊢
  have hk2 : (if (file1 ++ rest).length <
      (ProcessingStatus.mk
        (some (minuteFloor (maxNat ((completeOf (parsedOf
          (file1.drop (if file1.length < st0.lastRow then 0 else st0.lastRow)))
          now1).map Prod.fst))))
        (some (maxNat ((completeOf (parsedOf
          (file1.drop (if file1.length < st0.lastRow then 0 else st0.lastRow)))
          now1).map (fun r => hourFloor r.1))))
        file1.length).lastRow
      then 0
      else (ProcessingStatus.mk
        (some (minuteFloor (maxNat ((completeOf (parsedOf
          (file1.drop (if file1.length < st0.lastRow then 0 else st0.lastRow)))
          now1).map Prod.fst))))
        (some (maxNat ((completeOf (parsedOf
          (file1.drop (if file1.length < st0.lastRow then 0 else st0.lastRow)))
          now1).map (fun r => hourFloor r.1))))
        file1.length).lastRow) = file1.length := by
    rw [if_neg]
    simp [List.length_append]
  rw [hk2] at h2 ⊢
  obtain ⟨hc2ne, -, -, hst2⟩ :=
    processFileCore_eq_some (file1 ++ rest) _ now2 w2 file1.length out2 h2
  rw [List.drop_left] at hc2ne hst2
  rw [hst2]
  simp only [Option.getD_some]
  obtain ⟨px, hpx⟩ := List.exists_mem_of_ne_nil _ hc2ne
  constructor
  · have hd1ne : (completeOf (parsedOf (file1.drop
        (if file1.length < st0.lastRow then 0 else st0.lastRow))) now1).map
        Prod.fst ≠ [] := by
      simpa using hc1ne
    obtain ⟨py, hpy, hpy1⟩ := List.mem_map.mp (maxNat_mem hd1ne)
    have hyx : py.1 ≤ px.1 :=
      completeOf_cross_le file1 rest _ now1 now2 hsorted hpy hpx
    have hmem2 : px.1 ∈ (completeOf (parsedOf rest) now2).map Prod.fst :=
      List.mem_map.mpr ⟨px, hpx, rfl⟩
    have hmax2 : px.1 ≤ maxNat ((completeOf (parsedOf rest) now2).map Prod.fst) :=
      le_maxNat hmem2
    apply minuteFloor_mono
    rw [← hpy1]
    exact le_trans hyx hmax2
  · have hh1ne : (completeOf (parsedOf (file1.drop
        (if file1.length < st0.lastRow then 0 else st0.lastRow))) now1).map
        (fun r => hourFloor r.1) ≠ [] := by
      simpa using hc1ne
    obtain ⟨py, hpy, hpy1⟩ := List.mem_map.mp (maxNat_mem hh1ne)
    have hyx : py.1 ≤ px.1 :=
      completeOf_cross_le file1 rest _ now1 now2 hsorted hpy hpx
    have hstep : hourFloor py.1 ≤ hourFloor px.1 := hourFloor_mono hyx
    have hmem2 : hourFloor px.1 ∈ (completeOf (parsedOf rest) now2).map
        (fun r => hourFloor r.1) := List.mem_map.mpr ⟨px, hpx, rfl⟩
    have hmax2 : hourFloor px.1 ≤
        maxNat ((completeOf (parsedOf rest) now2).map (fun r => hourFloor r.1)) :=
      le_maxNat hmem2
    rw [← hpy1]
    exact le_trans hstep hmax2

/-- C5 witness for the amended theorem: records at 33000 then 36600, the
first pass at 36000 (stores 33000/32400), the second pass at 39660 after
the file grew by one record (stores 36600/36000): both stored timestamps
increased. -/
theorem c5_timestamps_monotone_without_truncation_witness :
    (processFile [recAt 33000] stEmpty 36000 true).1.lastRawTimestamp.getD 0 ≤
      (processFile ([recAt 33000] ++ [recAt 36600])
        (processFile [recAt 33000] stEmpty 36000 true).1
        39660 true).1.lastRawTimestamp.getD 0 ∧
    (processFile [recAt 33000] stEmpty 36000 true).1.lastAvgTimestamp.getD 0 ≤
      (processFile ([recAt 33000] ++ [recAt 36600])
        (processFile [recAt 33000] stEmpty 36000 true).1
        39660 true).1.lastAvgTimestamp.getD 0 :=
  c5_timestamps_monotone_without_truncation [recAt 33000] [recAt 36600]
    stEmpty 36000 39660 true true
    (groupRows (completeOf (parsedOf [recAt 33000]) 36000))
    (groupRows (completeOf (parsedOf [recAt 36600]) 39660))
    (by decide) rfl rfl

/-- C8 (counterexample): "A_B_2025_03_extra.txt" splits into five
underscore-separated parts, so it does not match the expected 4-part
pattern, yet `build_output_filename` maps it to
"NYUAD_FIDAS_DATA_2025_03.csv" rather than the timestamp-based fallback
name, because the code only requires `len(parts) >= 4`. -/
theorem c8_five_part_name_avoids_fallback :
    (splitStr '_' "A_B_2025_03_extra.txt").length = 5 ∧
    build_output_filename "A_B_2025_03_extra.txt" ⟨2025, 1, 1, 0, 0, 0⟩ =
      "NYUAD_FIDAS_DATA_2025_03.csv" ∧
    timestampFallback ⟨2025, 1, 1, 0, 0, 0⟩ =
      "NYUAD_FIDAS_DATA_20250101_000000.csv" ∧
    build_output_filename "A_B_2025_03_extra.txt" ⟨2025, 1, 1, 0, 0, 0⟩ ≠
      timestampFallback ⟨2025, 1, 1, 0, 0, 0⟩ := by
  decide

/-- C8 (amended): "DUSTMONITOR_17712_2025_03.txt" maps to
"NYUAD_FIDAS_DATA_2025_03.csv", and every name whose basename does NOT
split on underscores into at least four parts with a numeric third part
and a numeric pre-dot fourth part falls back to the timestamp-based
name.  (Names with more than four parts satisfying the digit checks do
not fall back, which is where the original claim's "4-part pattern"
wording fails.) -/
theorem c8_output_filename_spec :
    (∀ now : DateTimeParts,
      build_output_filename "DUSTMONITOR_17712_2025_03.txt" now =
        "NYUAD_FIDAS_DATA_2025_03.csv") ∧
    (∀ (name : String) (now : DateTimeParts),
      ¬ (4 ≤ (splitStr '_' (basename name)).length ∧
          isDigitStr ((splitStr '_' (basename name)).getD 2 "") = true ∧
          isDigitStr ((splitStr '.'
            ((splitStr '_' (basename name)).getD 3 "")).headD "") = true) →
      build_output_filename name now = timestampFallback now) := by
  constructor
  · intro now
    rfl
  · intro name now h
    simp only [build_output_filename]
    by_cases h4 : 4 ≤ (splitStr '_' (basename name)).length
    · rw [if_pos h4]
      have hd : (isDigitStr ((splitStr '_' (basename name)).getD 2 "") &&
          isDigitStr ((splitStr '.'
            ((splitStr '_' (basename name)).getD 3 "")).headD "")) = false := by
        by_contra hcon
        rw [Bool.not_eq_false, Bool.and_eq_true] at hcon
        exact h ⟨h4, hcon.1, hcon.2⟩
      rw [if_neg (fun hcon => by rw [hd] at hcon; exact Bool.noConfusion hcon)]
    · rw [if_neg h4]

/-- C8 witness: the documented raw name maps to its monthly artifact name,
and "badname.txt" (a single underscore part) receives the fallback. -/
theorem c8_output_filename_spec_witness :
    build_output_filename "DUSTMONITOR_17712_2025_03.txt" ⟨2025, 1, 1, 0, 0, 0⟩ =
      "NYUAD_FIDAS_DATA_2025_03.csv" ∧
    build_output_filename "badname.txt" ⟨2025, 1, 1, 0, 0, 0⟩ =
      timestampFallback ⟨2025, 1, 1, 0, 0, 0⟩ :=
  ⟨c8_output_filename_spec.1 ⟨2025, 1, 1, 0, 0, 0⟩,
   c8_output_filename_spec.2 "badname.txt" ⟨2025, 1, 1, 0, 0, 0⟩ (by decide)⟩

theorem findRow_map_upd (store : List (String × StatusRow)) (fn : String)
    (f : StatusRow → StatusRow) :
    findRow (store.map (fun kv => if kv.1 = fn then (kv.1, f kv.2) else kv)) fn =
      (findRow store fn).map f := by
  induction store with
  | nil => rfl
  | cons kv rest ih =>
      by_cases hk : kv.1 = fn
      · simp [findRow, List.map_cons, hk]
      · simp [findRow, List.map_cons, hk, ih]

theorem findRow_map_other (store : List (String × StatusRow)) (fn fn2 : String)
    (hne : fn2 ≠ fn) (f : StatusRow → StatusRow) :
    findRow (store.map (fun kv => if kv.1 = fn then (kv.1, f kv.2) else kv)) fn2 =
      findRow store fn2 := by
  induction store with
  | nil => rfl
  | cons kv rest ih =>
      have hne2 : ¬fn = fn2 := fun hh => hne hh.symm
      by_cases hk2 : kv.1 = fn2
      · have hk : ¬kv.1 = fn := fun hh => hne (by rw [← hk2, hh])
        simp [findRow, List.map_cons, hk, hk2, hne]
      · by_cases hk : kv.1 = fn
        · simp [findRow, List.map_cons, hk, hk2, ih, hne2]
        · simp [findRow, List.map_cons, hk, hk2, ih]

theorem findRow_append_none (l1 l2 : List (String × StatusRow)) (fn : String)
    (h : findRow l1 fn = none) : findRow (l1 ++ l2) fn = findRow l2 fn := by
  induction l1 with
  | nil => rfl
  | cons kv rest ih =>
      by_cases hk : kv.1 = fn
      · simp [findRow, hk] at h
      · simp only [List.cons_append, findRow, if_neg hk] at h ⊢
        exact ih h

theorem findRow_append_some (l1 l2 : List (String × StatusRow)) (fn : String)
    (v : StatusRow) (h : findRow l1 fn = some v) :
    findRow (l1 ++ l2) fn = some v := by
  induction l1 with
  | nil => exact Option.noConfusion h
  | cons kv rest ih =>
      by_cases hk : kv.1 = fn
      · simp only [findRow, if_pos hk] at h
        simp [List.cons_append, findRow, hk, h]
      · simp only [findRow, if_neg hk] at h
        simp only [List.cons_append, findRow, if_neg hk]
        exact ih h

/-- C9: the upsert contract of `update_processing_status`.  Looking up the
written key afterwards yields: on an existing row, the supplied fields
overwritten and every omitted (None) field kept; on a missing row, a fresh
row with omitted fields defaulted to "" (timestamps) and 0 (last_row).
Every other key's lookup is untouched. -/
theorem c9_update_processing_status_spec :
    (∀ (store : List (String × StatusRow)) (fn : String)
        (raw avg : Option String) (row : Option Nat),
      findRow (update_processing_status store fn raw avg row) fn =
        some (match findRow store fn with
          | some prev =>
              { lastRawTimestamp := raw.getD prev.lastRawTimestamp
                lastAvgTimestamp := avg.getD prev.lastAvgTimestamp
                lastRow := row.getD prev.lastRow }
          | none =>
              { lastRawTimestamp := raw.getD ""
                lastAvgTimestamp := avg.getD ""
                lastRow := row.getD 0 })) ∧
    (∀ (store : List (String × StatusRow)) (fn : String)
        (raw avg : Option String) (row : Option Nat) (fn2 : String),
      fn2 ≠ fn →
      findRow (update_processing_status store fn raw avg row) fn2 =
        findRow store fn2) := by
  constructor
  · intro store fn raw avg row
    cases hprev : findRow store fn with
    | some prev =>
        simp only [update_processing_status, hprev]
        rw [findRow_map_upd store fn
          (fun v => { lastRawTimestamp := raw.getD v.lastRawTimestamp
                      lastAvgTimestamp := avg.getD v.lastAvgTimestamp
                      lastRow := row.getD v.lastRow }), hprev]
        rfl
    | none =>
        simp only [update_processing_status, hprev]
        rw [findRow_append_none store _ fn hprev]
        simp [findRow]
  · intro store fn raw avg row fn2 hne
    cases hprev : findRow store fn with
    | some prev =>
        simp only [update_processing_status, hprev]
        rw [findRow_map_other store fn fn2 hne
          (fun v => { lastRawTimestamp := raw.getD v.lastRawTimestamp
                      lastAvgTimestamp := avg.getD v.lastAvgTimestamp
                      lastRow := row.getD v.lastRow })]
    | none =>
        simp only [update_processing_status, hprev]
        cases h2 : findRow store fn2 with
        | some v => exact findRow_append_some store _ fn2 v h2
        | none =>
            rw [findRow_append_none store _ fn2 h2]
            have hne2 : ¬fn = fn2 := fun hh => hne hh.symm
            simp [findRow, hne2]

/-- C9 witness: creating a row with only last_raw supplied defaults the
other fields, and an upsert for one key leaves another key's lookup
unchanged. -/
theorem c9_update_processing_status_spec_witness :
    findRow (update_processing_status [] "f.txt" (some "x") none none) "f.txt" =
      some ⟨"x", "", 0⟩ ∧
    findRow (update_processing_status [] "a.txt" none none none) "b.txt" =
      findRow [] "b.txt" :=
  ⟨c9_update_processing_status_spec.1 [] "f.txt" (some "x") none none,
   c9_update_processing_status_spec.2 [] "a.txt" none none none "b.txt"
     (by decide)⟩

theorem lexLe_total (a b : List Nat) (h : lexLe a b = false) :
    lexLe b a = true := by
  induction a generalizing b with
  | nil => simp [lexLe] at h
  | cons x as ih =>
      cases b with
      | nil => simp [lexLe]
      | cons y bs =>
          simp only [lexLe] at h ⊢
          by_cases hxy : x < y
          · rw [if_pos hxy] at h
            exact Bool.noConfusion h
          · rw [if_neg hxy] at h
            by_cases heq : x = y
            · subst heq
              rw [if_pos rfl] at h
              rw [if_neg (lt_irrefl x), if_pos rfl]
              exact ih bs h
            · have hyx : y < x :=
                lt_of_le_of_ne (le_of_not_lt hxy) (fun hh => heq hh.symm)
              rw [if_pos hyx]

theorem lexLe_trans (a b c : List Nat) (h1 : lexLe a b = true)
    (h2 : lexLe b c = true) : lexLe a c = true := by
  induction a generalizing b c with
  | nil => simp [lexLe]
  | cons x as ih =>
      cases b with
      | nil => simp [lexLe] at h1
      | cons y bs =>
          cases c with
          | nil => simp [lexLe] at h2
          | cons z cs =>
              simp only [lexLe] at h1 h2 ⊢
              by_cases hxy : x < y
              · by_cases hyz : y < z
                · rw [if_pos (lt_trans hxy hyz)]
                · rw [if_neg hyz] at h2
                  by_cases heqyz : y = z
                  · subst heqyz
                    rw [if_pos hxy]
                  · rw [if_neg heqyz] at h2
                    exact Bool.noConfusion h2
              · rw [if_neg hxy] at h1
                by_cases heqxy : x = y
                · subst heqxy
                  rw [if_pos rfl] at h1
                  by_cases hyz : x < z
                  · rw [if_pos hyz]
                  · rw [if_neg hyz] at h2 ⊢
                    by_cases heqyz : x = z
                    · subst heqyz
                      rw [if_pos rfl] at h2 ⊢
                      exact ih bs cs h1 h2
                    · rw [if_neg heqyz] at h2
                      exact Bool.noConfusion h2
                · rw [if_neg heqxy] at h1
                  exact Bool.noConfusion h1

theorem strLe_total (a b : String) (h : strLe a b = false) : strLe b a = true :=
  lexLe_total _ _ h

theorem strLe_trans (a b c : String) (h1 : strLe a b = true)
    (h2 : strLe b c = true) : strLe a c = true :=
  lexLe_trans _ _ _ h1 h2

/-- C10: each FTP cycle's source list.  A directory-listing error yields
the empty list (no exception, no sources processed); on success the list
is exactly the names whose lowercased form ends in ".txt" (a permutation
of that filter, hence the same multiset), arranged in lexicographic
code-point order of the original names — the order in which `main`
processes them. -/
theorem c10_list_remote_txt_files_spec :
    (∀ e : String, list_remote_txt_files (Except.error e) = []) ∧
    (∀ names : List String,
      (list_remote_txt_files (Except.ok names)).Perm
        (names.filter (fun n => strEndsWith (lowerStr n) ".txt")) ∧
      (list_remote_txt_files (Except.ok names)).Pairwise
        (fun a b => strLe a b = true)) :=
  ⟨fun _ => rfl,
   fun names =>
    ⟨sortLe_perm strLe (names.filter (fun n => strEndsWith (lowerStr n) ".txt")),
     pairwise_sortLe strLe strLe_total strLe_trans _⟩⟩

end FidasIqair
